import Mathlib

/-!
Verification of core properties of the joyBox stream-recording server.

The definitions below are a shallow embedding of the TypeScript sources:
  - src/src/Components/Observables/EditObservableDialog.vue (active plugin view)
  - src/unnamed/part_000 (the backend App class: Run, PrepareFileSystem,
    LoadData, SetupPluginManagerController, Shutdown)
  - src/backend/Src/Common/Util.ts (UsernameFromUrl, GenFilename,
    GenClipFilename, IE, IEM, AIE, GetFolderSize)

JavaScript machine behaviour is modelled explicitly: a call that can throw
becomes a function into `Except`, `null`/`undefined` results become `Option`,
and sources of randomness or wall-clock time become explicit parameters.
-/

namespace JoyBox

/-! ## C1: the active plugin of an observable (EditObservableDialog.vue) -/

/-- A plugin as the observable dialog sees it: display name and enabled flag
(fields used by EditObservableDialog.vue). -/
structure Plugin where
  name : String
  enabled : Bool
deriving DecidableEq

/-- The `ActivePlugin` getter of EditObservableDialog.vue:
`this.Plugins.find(x => x.enabled) || null`, where `Plugins` is the
observable's ordered claimant list. JS `Array.find` returns the first element
satisfying the predicate, `undefined` otherwise; plugin objects are truthy, so
`|| null` maps exactly the `undefined` case to `null`. -/
def ActivePlugin (plugins : List Plugin) : Option Plugin :=
  plugins.find? (fun p => p.enabled)

/-! ## C3: quota arbiter registration (App.SetupPluginManagerController) -/

/-- The three persisted quota settings (storage.FetchSettings()); the operator
can store any integer, including zero or a negative number. -/
structure AppSettings where
  storageQuota : Int
  instanceQuota : Int
  downloadSpeedQuota : Int

/-- The arbiter registry keys STORAGE_QUOTA_ID, INSTANCE_QUOTA_ID and
DOWNLOAD_SPEED_QUOTA (imported from Quotas/Constants, three distinct
identifiers; their string values are immaterial here). -/
inductive QuotaId where
  | storage
  | inst
  | downloadSpeed
deriving DecidableEq

/-- `App.SetupPluginManagerController`: for each of the three settings, the
arbiter is constructed and `AddArbiter` is called exactly when the configured
limit is `> 0`; the result is the list of registered arbiter ids, in call
order. -/
def SetupPluginManagerController (s : AppSettings) : List QuotaId :=
  (if 0 < s.storageQuota then [QuotaId.storage] else []) ++
    (if 0 < s.instanceQuota then [QuotaId.inst] else []) ++
      (if 0 < s.downloadSpeedQuota then [QuotaId.downloadSpeed] else [])

/-! ## C2: the shutdown drain (App.Shutdown) -/

/-- One in-progress recording as exposed by `RecordingService.Records`; only
its label is consulted by `App.Shutdown`. -/
structure RecordEntry where
  label : String

/-- The calls `App.Shutdown`'s `StopRecorder` makes before awaiting:
`pluginManager.Stop()` and one `StopRecording(label)` per active record. -/
inductive ShutdownAction where
  | pluginManagerStop
  | stopRecording (label : String)
deriving DecidableEq

/-- The completion handler of `App.Shutdown`: `awaitedRecordings` starts at the
number of records and each `CompleteEvent` runs `if (--awaitedRecordings === 0)
resolve()`. Given the remaining counter value and the stream of
stop-completion notifications, returns how many notifications were consumed
when `resolve` fired, or `none` if it never fired. The counter is an `Int`
because the JS decrement keeps going below zero on extra notifications. -/
def countdown : Int → List Unit → Option Nat
  | _, [] => none
  | c, _ :: es =>
    if c - 1 = 0 then some 1 else Option.map (fun k => k + 1) (countdown (c - 1) es)

/-- The actions `StopRecorder` performs immediately: nothing when there is no
active recording (it resolves at once), otherwise `pluginManager.Stop()`
followed by `StopRecording` for every record's label. -/
def StopRecorderRequests (records : List RecordEntry) : List ShutdownAction :=
  if records.length = 0 then []
  else ShutdownAction.pluginManagerStop ::
    records.map (fun r => ShutdownAction.stopRecording r.label)

/-- How many stop-completion notifications `StopRecorder`'s promise consumes
before resolving: zero when no recording is active, otherwise determined by
the countdown handler; `none` means the promise never resolves (shutdown
stalls). -/
def StopRecorderResolveCount (records : List RecordEntry) (completions : List Unit) :
    Option Nat :=
  if records.length = 0 then some 0
  else countdown (records.length : Int) completions

/-- `App.Shutdown` awaits `StopRecorder()` and then calls `process.exit(0)`:
the exit code is 0 exactly when the drain resolved. -/
def ShutdownExitCode (records : List RecordEntry) (completions : List Unit) :
    Option Nat :=
  Option.map (fun _ => 0) (StopRecorderResolveCount records completions)

/-! ## C9: the exception-suppressing wrappers (Util.ts) -/

/-- A JS exception value; only its presence matters. -/
def JsErr : Type := String

/-- `IE(fn, ...args)` from Util.ts: `try { return fn(...args) } catch (e)
{ return null }`. The wrapped call is a JS function that may throw, modelled
as a function into `Except`; the wrapper itself is again such a function, and
the `catch` maps every thrown value to a normal `null` return. -/
def IE {α β : Type} (fn : α → Except JsErr β) (args : α) : Except JsErr (Option β) :=
  match fn args with
  | Except.ok v => Except.ok (some v)
  | Except.error _ => Except.ok none

/-- `IEM(fn, context, ...args)` from Util.ts: like `IE` but the wrapped call is
a method first bound to `context` via `fn.bind(context)`. -/
def IEM {γ α β : Type} (fn : γ → α → Except JsErr β) (context : γ) (args : α) :
    Except JsErr (Option β) :=
  match fn context args with
  | Except.ok v => Except.ok (some v)
  | Except.error _ => Except.ok none

/-- `AIE(fn, ...args)` from Util.ts: `try { return await fn(...args) } catch
(e) { return null }`. A promise is a deferred `Except`: `await` either yields
the resolved value or throws the rejection reason, so a synchronous throw and
a rejected promise reach the same `catch`. -/
def AIE {α β : Type} (fn : α → Except JsErr β) (args : α) : Except JsErr (Option β) :=
  match fn args with
  | Except.ok v => Except.ok (some v)
  | Except.error _ => Except.ok none

/-! ## C4 and C5: startup (App.Run, App.PrepareFileSystem, App.LoadData) -/

/-- The data directory from Constants.ts (the constants file is not among the
provided sources; App.Run logs that `/app/data` must be mounted and
PrepareFileSystem's doc comment draws the tree data/ → archive/ →
thumbnail/). Only the identity of the three paths matters below. -/
def DATA_FOLDER : String := "data"

/-- The archive directory under the data directory. -/
def ARCHIVE_FOLDER : String := "data/archive"

/-- The thumbnail directory under the archive directory. -/
def THUMBNAIL_FOLDER : String := "data/archive/thumbnail"

/-- The filesystem as App.Run observes it: which paths `fs.existsSync` reports,
and which `fs.mkdirSync` calls throw (permissions, read-only mount, races). -/
structure FsEnv where
  pathExists : String → Bool
  mkdirFails : String → Bool

/-- `fs.mkdirSync(p)`: throws when the environment says so; afterwards the
path exists. -/
def mkdirSync (fs : FsEnv) (p : String) : Except Unit FsEnv :=
  if fs.mkdirFails p then Except.error ()
  else Except.ok (FsEnv.mk (fun q => q = p || fs.pathExists q) fs.mkdirFails)

/-- `App.IsDataMounted`: `fs.existsSync(DATA_FOLDER)`. -/
def IsDataMounted (fs : FsEnv) : Bool :=
  fs.pathExists DATA_FOLDER

/-- `App.PrepareFileSystem`: if the archive folder is missing, create it and
the thumbnail folder; else if only the thumbnail folder is missing, create it;
a throwing `mkdirSync` propagates to the caller. -/
def PrepareFileSystem (fs : FsEnv) : Except Unit FsEnv :=
  if fs.pathExists ARCHIVE_FOLDER = false then
    match mkdirSync fs ARCHIVE_FOLDER with
    | Except.error e => Except.error e
    | Except.ok fs1 => mkdirSync fs1 THUMBNAIL_FOLDER
  else if fs.pathExists THUMBNAIL_FOLDER = false then
    mkdirSync fs THUMBNAIL_FOLDER
  else Except.ok fs

/-- One persisted observable row as `storage.FetchObservables()` returns it. -/
structure ObservableRow where
  url : String
  lastSeen : Nat
  plugins : List String
deriving DecidableEq

/-- The persisted state App.Run reads: whether the database is initialized
(`storage.IsInitialized()`), and the persisted observable rows. (`LoadData`
also syncs persisted plugin ids/flags and the archive; that sync never touches
which plugin names are registered, the only registry fact used below.) -/
structure StorageEnv where
  initialized : Bool
  observables : List ObservableRow

/-- The plugin names the App constructor registers via `RegisterPlugin`. -/
def registeredPluginNames : List String :=
  ["bongacams", "bongacams_direct", "chaturbate", "camsoda", "dummy"]

/-- `pluginManager.FindPlugin(name)` succeeds exactly for registered names. -/
def FindPlugin (name : String) : Bool :=
  registeredPluginNames.contains name

/-- JS `Map.set`: insert, or overwrite in place when the key is present. -/
def mapSet : List (String × ObservableRow) → String → ObservableRow →
    List (String × ObservableRow)
  | [], k, v => [(k, v)]
  | (k0, v0) :: rest, k, v =>
    if k0 = k then (k, v) :: rest else (k0, v0) :: mapSet rest k v

/-- The observables map `App.LoadData` builds: each persisted row whose plugin
names all resolve in the registry is entered into the map; a row with any
missing plugin name is logged and skipped (the forEach callback returns
early), and loading continues with the next row. -/
def LoadDataObservables (rows : List ObservableRow) : List (String × ObservableRow) :=
  rows.foldl
    (fun m row => if row.plugins.all FindPlugin then mapSet m row.url row else m) []

/-- The externally visible steps of `App.Run`, in program order. -/
inductive RunAction where
  | logMissingData
  | openDb
  | initializeDb
  | logPrepareError
  | loadData
  | registerSigterm
  | listen
deriving DecidableEq

/-- How `App.Run` ends: `process.exit(code)`, or serving with the loaded
observables map (and whether `InitializeDb` ran first). -/
inductive RunResult where
  | exited (code : Nat)
  | listening (observables : List (String × ObservableRow)) (dbWasInitialized : Bool)
deriving DecidableEq

/-- `App.Run`: exit(1) when the data folder is not mounted; otherwise open the
db, initialize it when `IsInitialized()` is false, run `PrepareFileSystem`
(exit(1) when it throws), then `LoadData`, install the SIGTERM handler and
listen. Returns the performed steps and the outcome. -/
def Run (fs : FsEnv) (st : StorageEnv) : List RunAction × RunResult :=
  if IsDataMounted fs = false then
    ([RunAction.logMissingData], RunResult.exited 1)
  else
    let initActs := if st.initialized then [] else [RunAction.initializeDb]
    match PrepareFileSystem fs with
    | Except.error _ =>
      (RunAction.openDb :: initActs ++ [RunAction.logPrepareError], RunResult.exited 1)
    | Except.ok _ =>
      (RunAction.openDb :: initActs ++
          [RunAction.loadData, RunAction.registerSigterm, RunAction.listen],
        RunResult.listening (LoadDataObservables st.observables) (!st.initialized))

/-! ## C7: StopRecording idempotence (RecordingService) -/

/-- Modelled from the spec: the state of `RecordingService`
(backend Src/Services/RecordingService.ts is not among the provided sources —
only its caller `App.Shutdown` is). Spec §4.3: the manager owns the set of
in-progress recordings (`Records`), and a stop finalizes the session and
emits one stop event. -/
structure RecorderState where
  records : List RecordEntry
  stopEvents : List String

/-- Modelled from the spec: `StopRecording(label)` (spec §4.3, §8) — when a
session with the label is active it is removed and exactly one stop event for
it is emitted; otherwise the call is a no-op and raises no error (the
function is total and leaves the state unchanged). -/
def StopRecording (st : RecorderState) (label : String) : RecorderState :=
  if st.records.any (fun r => r.label = label) then
    RecorderState.mk (st.records.filter (fun r => r.label ≠ label))
      (st.stopEvents ++ [label])
  else st

/-! ## C8: disk-usage sampling (Util.GetFolderSize, Resource Monitor) -/

/-- The callback-style get-folder-size library call: for a path it reports the
callback pair `(err, size)`. -/
def DiskProbe : Type := String → Option String × Nat

/-- `GetFolderSize` from Util.ts: wraps the callback in a promise —
`(err, size) => err ? reject(err) : resolve(size)`. -/
def GetFolderSize (probe : DiskProbe) (path : String) : Except String Nat :=
  match probe path with
  | (some err, _) => Except.error err
  | (none, size) => Except.ok size

/-- Modelled from the spec: the Resource Monitor's polling state
(Services/SystemResourcesMonitor.ts is not among the provided sources).
Spec §4.6: it periodically samples usage under the archive root and publishes
updates; a failed sample is logged and the previous sample retained. -/
structure MonitorState where
  lastSample : Option Nat
  errorsLogged : Nat
deriving DecidableEq

/-- Modelled from the spec: one polling iteration over the archive root — a
successful `GetFolderSize` becomes the current sample; a failure is logged
and the previous sample is kept. The tick is a total function: no probe
outcome escapes it as an exception. -/
def MonitorTick (probe : DiskProbe) (path : String) (st : MonitorState) : MonitorState :=
  match GetFolderSize probe path with
  | Except.ok size => MonitorState.mk (some size) st.errorsLogged
  | Except.error _ => MonitorState.mk st.lastSample (st.errorsLogged + 1)

/-- Modelled from the spec: the polling loop, one probe result per tick. -/
def MonitorRun (probes : List DiskProbe) (path : String) (st : MonitorState) :
    MonitorState :=
  probes.foldl (fun s probe => MonitorTick probe path s) st

/-! ## C6 and C10: output filenames (Util.GenFilename, Util.GenClipFilename) -/

/-- A parsed `new URL(url)`; Util.ts reads only `hostname` and `pathname`.
For a well-formed http(s) URL the pathname always starts with a slash. -/
structure Url where
  hostname : String
  pathname : String

/-- JS `String.prototype.split` with a one-character separator: splitting the
empty string yields one empty piece, and each separator occurrence cuts. -/
def jsSplit (sep : Char) : List Char → List (List Char)
  | [] => [[]]
  | c :: cs =>
    match jsSplit sep cs with
    | [] => [[]]
    | w :: ws => if c = sep then [] :: w :: ws else (c :: w) :: ws

/-- `UsernameFromUrl` from Util.ts: `(new URL(url)).pathname.split('/')[1]`;
`none` models the JS `undefined` when the pathname has no second piece. -/
def UsernameFromUrl (url : Url) : Option (List Char) :=
  (jsSplit '/' url.pathname.data).get? 1

/-- JS template-literal interpolation of a string that may be `undefined`. -/
def jsShow : Option (List Char) → List Char
  | some s => s
  | none => "undefined".data

/-- The clock reading dayjs formats; one field per format token. -/
structure DateTime where
  day : Nat
  month : Nat
  year : Nat
  hour : Nat
  minute : Nat
  second : Nat

/-- Field ranges a real clock satisfies (dayjs pads each two-digit field from
values below 100 and the year from below 10000). -/
def DateTime.InRange (t : DateTime) : Prop :=
  t.day < 100 ∧ t.month < 100 ∧ t.year < 10000 ∧
    t.hour < 100 ∧ t.minute < 100 ∧ t.second < 100

/-- A two-digit zero-padded decimal field (dayjs `DD`, `MM`, `HH`, `mm`, `ss`). -/
def pad2 (n : Nat) : List Char :=
  [Nat.digitChar (n / 10), Nat.digitChar (n % 10)]

/-- A four-digit zero-padded decimal field (dayjs `YYYY`). -/
def pad4 (n : Nat) : List Char :=
  [Nat.digitChar (n / 1000), Nat.digitChar (n / 100 % 10),
    Nat.digitChar (n / 10 % 10), Nat.digitChar (n % 10)]

/-- `dayjs().format(`DDMMYYYYHHmmss`)`. -/
def formatTimestamp (t : DateTime) : List Char :=
  pad2 t.day ++ pad2 t.month ++ pad4 t.year ++
    pad2 t.hour ++ pad2 t.minute ++ pad2 t.second

/-- `Buffer.toString('hex')`: two lowercase hex digits per byte. -/
def bytesToHexL : List Nat → List Char
  | [] => []
  | b :: bs => Nat.digitChar (b / 16) :: Nat.digitChar (b % 16) :: bytesToHexL bs

/-- The `.mp4` extension. -/
def mp4Ext : List Char := ['.', 'm', 'p', '4']

/-- `GenFilename` from Util.ts: hostname, user, `DDMMYYYYHHmmss` timestamp and
the hex of the 3 random bytes `Crypto.randomFillSync` fills, joined by
underscores, with extension `.mp4`. The clock reading and the random bytes
are explicit inputs. -/
def GenFilename (url : Url) (now : DateTime) (randomBytes : List Nat) : String :=
  String.mk (url.hostname.data ++ '_' :: jsShow (UsernameFromUrl url) ++
    '_' :: formatTimestamp now ++ '_' :: bytesToHexL randomBytes ++ mp4Ext)

/-! ### The regex of GenClipFilename

`GenClipFilename` rewrites its argument with
`filename.replace(/([\w+.]+_.+_\d{14}_)([a-f0-9]{6}?)(\.mp4)/, $1 unique $3)`.
The definitions below embed exactly this pattern with JS backtracking
semantics: `replace` with a non-global regex rewrites the leftmost match
only; at a given position, the greedy `[\w+.]+` and `.+` consume as much as
possible and backtrack one character at a time; `\d{14}`, `[a-f0-9]{6}?`
(a lazy but fixed count, hence exactly six) and the literal `\.mp4` are
deterministic. `.` matches any character except a line terminator, and a
filename contains none, so it is modelled as matching any character. -/

/-- JS `\w`: an ASCII letter, a digit or an underscore. -/
def isWordChar (c : Char) : Bool :=
  c.isAlpha || c.isDigit || c = '_'

/-- The class `[\w+.]` opening the regex. -/
def clsG1 (c : Char) : Bool :=
  isWordChar c || c = '+' || c = '.'

/-- The class `[a-f0-9]` of the regex's second group. -/
def isHexLower (c : Char) : Bool :=
  ('a' ≤ c && c ≤ 'f') || c.isDigit

/-- The deterministic tail `_\d{14}_[a-f0-9]{6}\.mp4` of the pattern, matched
against a suffix of the subject: on success, the 14 digits, the 6 hex
characters (group 2) and the remainder after the match. -/
def matchTail (l : List Char) : Option (List Char × List Char × List Char) :=
  if l.head? = some '_' then
    let t := l.tail.take 14
    if t.length = 14 ∧ t.all Char.isDigit then
      let l2 := l.tail.drop 14
      if l2.head? = some '_' then
        let h := l2.tail.take 6
        if h.length = 6 ∧ h.all isHexLower then
          if (l2.tail.drop 6).take 4 = mp4Ext then
            some (t, h, (l2.tail.drop 6).drop 4)
          else none
        else none
      else none
    else none
  else none

/-- One attempt of the backtracking `.+`: consume exactly `j` characters,
then require the deterministic tail; on success, those characters, the 14
digits, group 2 and the remainder. -/
def stepB (l : List Char) (j : Nat) :
    Option (List Char × List Char × List Char × List Char) :=
  match matchTail (l.drop j) with
  | some (t, h, r) => some (l.take j, t, h, r)
  | none => none

/-- The greedy `.+`: longest consumption first, backtracking one character at
a time, at least one character. -/
def tryB : Nat → List Char → Option (List Char × List Char × List Char × List Char)
  | 0, _ => none
  | j + 1, l =>
    match stepB l (j + 1) with
    | some res => some res
    | none => tryB j l

/-- What follows one attempt of `[\w+.]+`: the literal underscore, then the
greedy `.+` over the whole remainder. On success: the `.+` characters, the
14 digits, group 2 and the remainder. -/
def stepATail (r : List Char) :
    Option (List Char × List Char × List Char × List Char) :=
  if r.head? = some '_' then
    match tryB r.tail.length r.tail with
    | some (b, t, h, rest) => some (b, t, h, rest)
    | none => none
  else none

/-- The capture groups of a successful match: group 1
(`[\w+.]+_.+_\d{14}_`), group 2 (the six hex characters) and the remainder
after the match; group 3 is always `.mp4`. -/
structure RxGroups where
  g1 : List Char
  g2 : List Char
  rest : List Char
deriving DecidableEq

/-- One attempt of the backtracking `[\w+.]+`: consume exactly `m`
characters (every attempted `m` is within the maximal class run, so the
consumed characters are in the class), then the rest of the pattern. -/
def stepA (l : List Char) (m : Nat) : Option RxGroups :=
  match stepATail (l.drop m) with
  | some (b, t, h, rest) =>
    some (RxGroups.mk (l.take m ++ '_' :: b ++ '_' :: t ++ ['_']) h rest)
  | none => none

/-- The greedy `[\w+.]+`: longest consumption first, backtracking one
character at a time, at least one character. -/
def tryA : Nat → List Char → Option RxGroups
  | 0, _ => none
  | m + 1, l =>
    match stepA l (m + 1) with
    | some res => some res
    | none => tryA m l

/-- Match the pattern anchored at the start of `l`: the first atom `[\w+.]+`
can consume at most the maximal class run. -/
def matchHere (l : List Char) : Option RxGroups :=
  tryA (l.takeWhile clsG1).length l

/-- Leftmost search: try each position left to right, returning the skipped
prefix and the groups of the first position that matches. (At the empty
suffix no match is possible: `[\w+.]+` needs a character.) -/
def searchRx : List Char → Option (List Char × RxGroups)
  | [] => none
  | c :: l =>
    match matchHere (c :: l) with
    | some g => some ([], g)
    | none =>
      match searchRx l with
      | some (p, g) => some (c :: p, g)
      | none => none

/-- `String.prototype.replace` with this (non-global) regex and replacement
`$1${unique}$3`: the leftmost match is replaced by group 1, the fresh hex
and group 3 (always `.mp4`); everything around it is kept; with no match the
subject is returned unchanged. -/
def replaceRx (l : List Char) (fresh : List Char) : List Char :=
  match searchRx l with
  | some (p, g) => p ++ g.g1 ++ fresh ++ mp4Ext ++ g.rest
  | none => l

/-- `GenClipFilename` from Util.ts: replace the random-suffix group of a
filename produced by `GenFilename` with the hex of 3 freshly drawn random
bytes (an explicit input). -/
def GenClipFilename (filename : String) (randomBytes : List Nat) : String :=
  String.mk (replaceRx filename.data (bytesToHexL randomBytes))

/-- The URL of a source observed at the site root: its pathname has no second
segment, so `UsernameFromUrl` yields the empty user. -/
def urlNoUser : Url := Url.mk "a.b" "/"

/-- A clock reading whose formatted timestamp is 12345678901234. -/
def nowCex : DateTime := DateTime.mk 12 34 5678 90 12 34

/-! ## Sample inputs used by witnesses and counterexamples -/

/-- A sample environment in which the data folder is missing. -/
def fsMissingData : FsEnv := FsEnv.mk (fun _ => false) (fun _ => false)

/-- A sample environment in which every path exists and no mkdir throws. -/
def fsAllGood : FsEnv := FsEnv.mk (fun _ => true) (fun _ => false)

/-- A sample storage with an initialized empty database. -/
def stEmpty : StorageEnv := StorageEnv.mk true []

/-- A sample storage that is malformed twice over: the database reports
uninitialized, and the one persisted observable references a plugin name that
is not registered. -/
def stMalformed : StorageEnv :=
  StorageEnv.mk false [ObservableRow.mk "https://chaturbate.com/alice" 0 ["no_such_plugin"]]

/-- A probe that always fails with EACCES. -/
def probeFailing : DiskProbe := fun _ => (some "EACCES", 0)

/-- A sample source URL. -/
def urlSample : Url := Url.mk "chaturbate.com" "/alice"

/-- A sample clock reading. -/
def nowSample : DateTime := DateTime.mk 1 2 2021 3 4 5

/-- Digit characters from digits below ten. -/
theorem digitChar_isDigit {d : Nat} (hd : d < 10) :
    (Nat.digitChar d).isDigit = true := by
  interval_cases d <;> decide

/-- Hex characters from digits below sixteen: a decimal digit or a–f. -/
theorem digitChar_isHex {d : Nat} (hd : d < 16) :
    (Nat.digitChar d).isDigit = true ∨
      ('a' ≤ Nat.digitChar d ∧ Nat.digitChar d ≤ 'f') := by
  interval_cases d <;> decide

/-- Both characters of a two-digit field are digits. -/
theorem pad2_digits {n : Nat} (hn : n < 100) :
    ∀ c ∈ pad2 n, c.isDigit = true := by
  intro c hc
  simp only [pad2, List.mem_cons, List.not_mem_nil, or_false] at hc
  rcases hc with rfl | rfl
  · exact digitChar_isDigit (by omega)
  · exact digitChar_isDigit (by omega)

/-- All four characters of the year field are digits. -/
theorem pad4_digits {n : Nat} (hn : n < 10000) :
    ∀ c ∈ pad4 n, c.isDigit = true := by
  intro c hc
  simp only [pad4, List.mem_cons, List.not_mem_nil, or_false] at hc
  rcases hc with rfl | rfl | rfl | rfl
  · exact digitChar_isDigit (by omega)
  · exact digitChar_isDigit (by omega)
  · exact digitChar_isDigit (by omega)
  · exact digitChar_isDigit (by omega)

/-- The formatted timestamp has 14 characters. -/
theorem formatTimestamp_length (t : DateTime) : (formatTimestamp t).length = 14 := by
  simp [formatTimestamp, pad2, pad4]

/-- Every character of the formatted timestamp of an in-range reading is a
decimal digit. -/
theorem formatTimestamp_digits {t : DateTime} (ht : t.InRange) :
    ∀ c ∈ formatTimestamp t, c.isDigit = true := by
  obtain ⟨h1, h2, h3, h4, h5, h6⟩ := ht
  intro c hc
  simp only [formatTimestamp, List.mem_append] at hc
  rcases hc with ((((hc | hc) | hc) | hc) | hc) | hc
  · exact pad2_digits h1 c hc
  · exact pad2_digits h2 c hc
  · exact pad4_digits h3 c hc
  · exact pad2_digits h4 c hc
  · exact pad2_digits h5 c hc
  · exact pad2_digits h6 c hc

/-- The hex encoding has two characters per byte. -/
theorem bytesToHexL_length (bs : List Nat) :
    (bytesToHexL bs).length = 2 * bs.length := by
  induction bs with
  | nil => rfl
  | cons b bs ih => simp [bytesToHexL, ih]; omega

/-- Every character of the hex encoding of bytes is a lowercase hex digit. -/
theorem bytesToHexL_chars (bs : List Nat) (hbs : ∀ b ∈ bs, b < 256) :
    ∀ c ∈ bytesToHexL bs,
      c.isDigit = true ∨ ('a' ≤ c ∧ c ≤ 'f') := by
  induction bs with
  | nil => intro c hc; simp [bytesToHexL] at hc
  | cons b bs ih =>
    intro c hc
    have hb : b < 256 := hbs b (List.mem_cons_self b bs)
    simp only [bytesToHexL, List.mem_cons] at hc
    rcases hc with rfl | rfl | hc
    · exact digitChar_isHex (by omega)
    · exact digitChar_isHex (by omega)
    · exact ih (fun x hx => hbs x (List.mem_cons_of_mem b hx)) c hc

/-! ## Theorems -/

/-- C1: for every observable, at most one plugin is active (the view is a
single `Option`), and when one exists it is the first enabled entry of the
observable's ordered claimant list — every claimant preceding it is disabled
and the active one is enabled; no plugin is active exactly when no claimant is
enabled. -/
theorem activePlugin_unique_highest_precedence (ps : List Plugin) :
    (∀ p q : Plugin, ActivePlugin ps = some p → ActivePlugin ps = some q → p = q) ∧
    (∀ p : Plugin, ActivePlugin ps = some p →
      ∃ front back, ps = front ++ p :: back ∧ p.enabled = true ∧
        ∀ q ∈ front, q.enabled = false) ∧
    (ActivePlugin ps = none ↔ ∀ q ∈ ps, q.enabled = false) := by
  refine ⟨?_, ?_, ?_⟩
  · intro p q hp hq
    rw [hp] at hq
    exact Option.some.inj hq
  · induction ps with
    | nil =>
      intro p hp
      simp [ActivePlugin] at hp
    | cons a t ih =>
      intro p hp
      by_cases ha : a.enabled = true
      · have hpa : p = a := by
          have : ActivePlugin (a :: t) = some a := by
            simp [ActivePlugin, List.find?_cons_of_pos, ha]
          rw [this] at hp
          exact (Option.some.inj hp).symm
        subst hpa
        exact ⟨[], t, rfl, ha, by intro q hq; simp at hq⟩
      · have hp' : ActivePlugin t = some p := by
          have hfa : (fun p => p.enabled) a = false := by
            simpa using ha
          simpa [ActivePlugin, List.find?_cons_of_neg, hfa] using hp
        obtain ⟨front, back, hsplit, hen, hfront⟩ := ih p hp'
        refine ⟨a :: front, back, by simp [hsplit], hen, ?_⟩
        intro q hq
        rcases List.mem_cons.mp hq with h | h
        · subst h; simpa using ha
        · exact hfront q h
  · constructor
    · intro h q hq
      have := List.find?_eq_none.mp h q hq
      simpa using this
    · intro h
      apply List.find?_eq_none.mpr
      intro q hq
      simp [h q hq]

/-- C3: each quota arbiter (storage, instance, download-speed) is registered
with the Plugin Manager Controller if and only if its persisted limit is
strictly greater than zero; a zero or negative limit leaves it unregistered. -/
theorem arbiter_registered_iff_positive_limit (s : AppSettings) :
    (QuotaId.storage ∈ SetupPluginManagerController s ↔ 0 < s.storageQuota) ∧
    (QuotaId.inst ∈ SetupPluginManagerController s ↔ 0 < s.instanceQuota) ∧
    (QuotaId.downloadSpeed ∈ SetupPluginManagerController s ↔ 0 < s.downloadSpeedQuota) := by
  unfold SetupPluginManagerController
  refine ⟨?_, ?_, ?_⟩ <;>
    constructor <;> intro h <;>
      by_cases h1 : 0 < s.storageQuota <;>
        by_cases h2 : 0 < s.instanceQuota <;>
          by_cases h3 : 0 < s.downloadSpeedQuota <;>
            simp_all

/-- C2: on shutdown with the given active records, a `StopRecording` request is
issued for every record; when records exist the drain resolves after consuming
exactly `records.length` stop-completion notifications (whatever their order,
which the counter never inspects) and stalls if fewer arrive; with no records
it resolves immediately, consuming none; and whenever the exit path is taken
its exit code is 0. -/
theorem shutdown_drains_completely (records : List RecordEntry) (completions : List Unit) :
    (∀ r ∈ records, ShutdownAction.stopRecording r.label ∈ StopRecorderRequests records) ∧
    (StopRecorderResolveCount records completions =
      if records.length ≤ completions.length then some records.length else none) ∧
    (records.length = 0 → StopRecorderResolveCount records completions = some 0) ∧
    (∀ n, ShutdownExitCode records completions = some n → n = 0) := by
  have hcount : ∀ (es : List Unit) (c : Int), 0 < c →
      countdown c es = if c ≤ (es.length : Int) then some c.toNat else none := by
    intro es
    induction es with
    | nil =>
      intro c hc
      have hneg : ¬ c ≤ ((([] : List Unit).length : Nat) : Int) := by
        simp only [List.length_nil, Nat.cast_zero]
        omega
      rw [if_neg hneg]
      simp [countdown]
    | cons e es ih =>
      intro c hc
      have hlen : (((e :: es).length : Nat) : Int) = (es.length : Int) + 1 := by
        simp only [List.length_cons]
        push_cast
        omega
      by_cases hone : c - 1 = 0
      · have hc1 : c = 1 := by omega
        subst hc1
        have hle : (1 : Int) ≤ (((e :: es).length : Nat) : Int) := by
          rw [hlen]
          omega
        rw [if_pos hle]
        simp [countdown]
      · have hc' : 0 < c - 1 := by omega
        have hrec : countdown c (e :: es) =
            Option.map (fun k => k + 1) (countdown (c - 1) es) := by
          simp [countdown, hone]
        rw [hrec, ih (c - 1) hc']
        by_cases hle : c - 1 ≤ (es.length : Int)
        · rw [if_pos hle]
          have hle2 : c ≤ (((e :: es).length : Nat) : Int) := by
            rw [hlen]
            omega
          rw [if_pos hle2]
          simp only [Option.map_some']
          congr 1
          omega
        · rw [if_neg hle]
          have hle2 : ¬ c ≤ (((e :: es).length : Nat) : Int) := by
            rw [hlen]
            omega
          rw [if_neg hle2]
          simp
  refine ⟨?_, ?_, ?_, ?_⟩
  · intro r hr
    have hne : records.length ≠ 0 := by
      intro h0
      rw [List.length_eq_zero] at h0
      subst h0
      simp at hr
    simp only [StopRecorderRequests, hne, if_false]
    exact List.mem_cons.mpr (Or.inr (List.mem_map.mpr ⟨r, hr, rfl⟩))
  · by_cases h0 : records.length = 0
    · have : records.length ≤ completions.length := by omega
      simp [StopRecorderResolveCount, h0, this]
    · have hpos : 0 < ((records.length : Nat) : Int) := by
        omega
      have := hcount completions (records.length : Int) hpos
      simp only [StopRecorderResolveCount, h0, if_false, this]
      by_cases hle : records.length ≤ completions.length
      · have hle' : ((records.length : Nat) : Int) ≤ (completions.length : Int) := by
          omega
        simp [hle, hle']
      · have hle' : ¬ ((records.length : Nat) : Int) ≤ (completions.length : Int) := by
          omega
        simp [hle, hle']
  · intro h0
    simp [StopRecorderResolveCount, h0]
  · intro n hn
    simp only [ShutdownExitCode, Option.map_eq_some'] at hn
    obtain ⟨k, _, hk⟩ := hn
    omega

/-- C9: each of `IE`, `IEM` and `AIE` returns the wrapped call's value when it
returns normally, returns `null` when it throws (or its promise rejects), and
never lets an exception escape: the wrapper's own result is always a normal
return. -/
theorem ie_iem_aie_total {γ α β : Type} (fn : α → Except JsErr β)
    (mfn : γ → α → Except JsErr β) (context : γ) (args : α) :
    ((∀ v, fn args = Except.ok v → IE fn args = Except.ok (some v)) ∧
      (∀ e, fn args = Except.error e → IE fn args = Except.ok none) ∧
      ∀ e, IE fn args ≠ Except.error e) ∧
    ((∀ v, mfn context args = Except.ok v → IEM mfn context args = Except.ok (some v)) ∧
      (∀ e, mfn context args = Except.error e → IEM mfn context args = Except.ok none) ∧
      ∀ e, IEM mfn context args ≠ Except.error e) ∧
    ((∀ v, fn args = Except.ok v → AIE fn args = Except.ok (some v)) ∧
      (∀ e, fn args = Except.error e → AIE fn args = Except.ok none) ∧
      ∀ e, AIE fn args ≠ Except.error e) := by
  refine ⟨⟨?_, ?_, ?_⟩, ⟨?_, ?_, ?_⟩, ⟨?_, ?_, ?_⟩⟩
  · intro v hv; simp [IE, hv]
  · intro e he; simp [IE, he]
  · intro e
    cases h : fn args <;> simp [IE, h]
  · intro v hv; simp [IEM, hv]
  · intro e he; simp [IEM, he]
  · intro e
    cases h : mfn context args <;> simp [IEM, h]
  · intro v hv; simp [AIE, hv]
  · intro e he; simp [AIE, he]
  · intro e
    cases h : fn args <;> simp [AIE, h]

/-- Ticks with a failing probe keep the last sample. -/
theorem monitorTick_keeps_sample_of_fail (p : DiskProbe) (path : String)
    (s : MonitorState) (h : ∃ e, (p path).1 = some e) :
    (MonitorTick p path s).lastSample = s.lastSample := by
  obtain ⟨e, he⟩ := h
  unfold MonitorTick GetFolderSize
  rcases hp : p path with ⟨o, n⟩
  rw [hp] at he
  simp only at he
  subst he
  rfl

/-- A run of failing ticks keeps the last sample. -/
theorem monitorRun_keeps_sample_of_fail (probes : List DiskProbe) (path : String)
    (st : MonitorState) (h : ∀ p ∈ probes, ∃ e, (p path).1 = some e) :
    (MonitorRun probes path st).lastSample = st.lastSample := by
  induction probes generalizing st with
  | nil => rfl
  | cons p ps ih =>
    have h1 := h p (List.mem_cons_self p ps)
    have hrest : ∀ q ∈ ps, ∃ e, (q path).1 = some e :=
      fun q hq => h q (List.mem_cons_of_mem p hq)
    show (MonitorRun ps path (MonitorTick p path st)).lastSample = st.lastSample
    rw [ih (MonitorTick p path st) hrest,
      monitorTick_keeps_sample_of_fail p path st h1]

/-- C4: when the data directory is absent, or filesystem preparation throws,
App.Run ends in `process.exit` with a non-zero code, and neither the
state-loading step nor the serving step is ever reached. -/
theorem run_exits_nonzero_on_bad_filesystem (fs : FsEnv) (st : StorageEnv)
    (h : IsDataMounted fs = false ∨ ∃ e, PrepareFileSystem fs = Except.error e) :
    (∃ c, (Run fs st).2 = RunResult.exited c ∧ c ≠ 0) ∧
    RunAction.loadData ∉ (Run fs st).1 ∧
    RunAction.listen ∉ (Run fs st).1 := by
  rcases h with h | ⟨e, he⟩
  · refine ⟨⟨1, ?_, one_ne_zero⟩, ?_, ?_⟩ <;> simp [Run, h]
  · by_cases hd : IsDataMounted fs = false
    · refine ⟨⟨1, ?_, one_ne_zero⟩, ?_, ?_⟩ <;> simp [Run, hd]
    · refine ⟨⟨1, ?_, one_ne_zero⟩, ?_, ?_⟩ <;>
        cases hsi : st.initialized <;>
          simp [Run, hd, he, hsi]

/-- C4 (witness): with no path present at all, App.Run exits non-zero without
loading state or serving. -/
theorem run_exits_nonzero_on_bad_filesystem_witness :
    (∃ c, (Run fsMissingData stEmpty).2 = RunResult.exited c ∧ c ≠ 0) ∧
    RunAction.loadData ∉ (Run fsMissingData stEmpty).1 ∧
    RunAction.listen ∉ (Run fsMissingData stEmpty).1 :=
  run_exits_nonzero_on_bad_filesystem fsMissingData stEmpty (Or.inl rfl)

/-- C5 (counterexample): the claim says a malformed persisted state —
uninitialized database, or an observable referencing an unregistered plugin
name — makes the process exit. On `stMalformed` (both conditions at once) the
code instead initializes the database, skips the bad observable row, and
proceeds all the way to serving: the outcome is `listening`, not `exited`. -/
theorem malformed_state_counterexample :
    (Run fsAllGood stMalformed).2 = RunResult.listening [] true ∧
    RunAction.listen ∈ (Run fsAllGood stMalformed).1 ∧
    RunAction.initializeDb ∈ (Run fsAllGood stMalformed).1 := by
  refine ⟨rfl, ?_, ?_⟩ <;> decide

/-- C5 (amended): malformed persisted state is not fatal. With the data
directory mounted and filesystem preparation succeeding, App.Run never exits:
an uninitialized or malformed database is (re)initialized and startup
continues; every persisted observable row referencing a plugin name missing
from the registry is logged and skipped, the remaining rows are loaded; and
the server reaches the listening step. -/
theorem startup_tolerates_malformed_state (fs : FsEnv) (st : StorageEnv)
    (hdata : IsDataMounted fs = true)
    (hprep : ∃ fs1, PrepareFileSystem fs = Except.ok fs1) :
    (∀ c, (Run fs st).2 ≠ RunResult.exited c) ∧
    (Run fs st).2 =
      RunResult.listening (LoadDataObservables st.observables) (!st.initialized) ∧
    (RunAction.initializeDb ∈ (Run fs st).1 ↔ st.initialized = false) ∧
    RunAction.listen ∈ (Run fs st).1 ∧
    LoadDataObservables st.observables =
      (st.observables.filter (fun row => row.plugins.all FindPlugin)).foldl
        (fun m row => mapSet m row.url row) [] := by
  obtain ⟨fs1, hp⟩ := hprep
  have hd : ¬ IsDataMounted fs = false := by simp [hdata]
  have hfold : ∀ (rows : List ObservableRow) (acc : List (String × ObservableRow)),
      rows.foldl
          (fun m row => if row.plugins.all FindPlugin then mapSet m row.url row else m)
          acc =
        (rows.filter (fun row => row.plugins.all FindPlugin)).foldl
          (fun m row => mapSet m row.url row) acc := by
    intro rows
    induction rows with
    | nil => intro acc; rfl
    | cons r rs ih =>
      intro acc
      by_cases h : r.plugins.all FindPlugin = true
      · simp only [List.foldl_cons, List.filter_cons, h, if_true, ih]
      · have h' : r.plugins.all FindPlugin = false := by
          cases hv : r.plugins.all FindPlugin
          · rfl
          · exact absurd hv h
        simp only [List.foldl_cons, List.filter_cons, h', if_false, ih,
          Bool.false_eq_true]
  refine ⟨?_, ?_, ?_, ?_, ?_⟩
  · intro c
    cases hsi : st.initialized <;> simp [Run, hd, hp, hsi]
  · cases hsi : st.initialized <;> simp [Run, hd, hp, hsi]
  · cases hsi : st.initialized <;> simp [Run, hd, hp, hsi]
  · cases hsi : st.initialized <;> simp [Run, hd, hp, hsi]
  · exact hfold st.observables []

/-- C5 (amended, witness): on the doubly malformed sample storage, startup
initializes the database, skips the bad row and serves. -/
theorem startup_tolerates_malformed_state_witness :
    (∀ c, (Run fsAllGood stMalformed).2 ≠ RunResult.exited c) ∧
    (Run fsAllGood stMalformed).2 =
      RunResult.listening (LoadDataObservables stMalformed.observables)
        (!stMalformed.initialized) ∧
    (RunAction.initializeDb ∈ (Run fsAllGood stMalformed).1 ↔
      stMalformed.initialized = false) ∧
    RunAction.listen ∈ (Run fsAllGood stMalformed).1 ∧
    LoadDataObservables stMalformed.observables =
      (stMalformed.observables.filter (fun row => row.plugins.all FindPlugin)).foldl
        (fun m row => mapSet m row.url row) [] :=
  startup_tolerates_malformed_state fsAllGood stMalformed rfl ⟨fsAllGood, rfl⟩

/-- C7: `StopRecording` is idempotent — stopping a label that is actively
recording removes it and emits exactly one stop event, and an immediately
repeated call is a no-op (the state, including the emitted events, is
unchanged, and no error is raised since the operation is total). -/
theorem stopRecording_idempotent (st : RecorderState) (label : String)
    (h : st.records.any (fun r => r.label = label) = true) :
    StopRecording (StopRecording st label) label = StopRecording st label ∧
    (StopRecording (StopRecording st label) label).stopEvents =
      st.stopEvents ++ [label] ∧
    (StopRecording st label).records.any (fun r => r.label = label) = false := by
  have hafter :
      ((st.records.filter (fun r => r.label ≠ label)).any
        (fun r => r.label = label)) = false := by
    rw [List.any_eq_false]
    intro r hr
    have hmem := List.mem_filter.mp hr
    have hne : r.label ≠ label := by simpa using hmem.2
    simpa using hne
  have h1 : StopRecording st label =
      RecorderState.mk (st.records.filter (fun r => r.label ≠ label))
        (st.stopEvents ++ [label]) := by
    unfold StopRecording
    rw [if_pos h]
  have h2 : (StopRecording st label).records.any (fun r => r.label = label) = false := by
    rw [h1]
    exact hafter
  have hnoop : ∀ s : RecorderState,
      s.records.any (fun r => r.label = label) = false → StopRecording s label = s := by
    intro s hs
    unfold StopRecording
    rw [hs]
    simp
  have h3 : StopRecording (StopRecording st label) label = StopRecording st label :=
    hnoop (StopRecording st label) h2
  refine ⟨h3, ?_, h2⟩
  rw [h3, h1]

/-- C7 (witness): stopping an active session twice yields one stop event. -/
theorem stopRecording_idempotent_witness :
    StopRecording (StopRecording (RecorderState.mk [RecordEntry.mk "chaturbate/alice"] [])
        "chaturbate/alice") "chaturbate/alice" =
      StopRecording (RecorderState.mk [RecordEntry.mk "chaturbate/alice"] [])
        "chaturbate/alice" ∧
    (StopRecording (StopRecording (RecorderState.mk [RecordEntry.mk "chaturbate/alice"] [])
        "chaturbate/alice") "chaturbate/alice").stopEvents =
      ([] : List String) ++ ["chaturbate/alice"] ∧
    (StopRecording (RecorderState.mk [RecordEntry.mk "chaturbate/alice"] [])
        "chaturbate/alice").records.any (fun r => r.label = "chaturbate/alice") = false :=
  stopRecording_idempotent (RecorderState.mk [RecordEntry.mk "chaturbate/alice"] [])
    "chaturbate/alice" (by decide)

/-- C8: a failure while sampling disk usage under the archive root is never
fatal: the tick that hits it returns normally with the error counted as
logged and the previously published sample retained, and a whole run of
failing ticks still ends with the original sample as the current one. -/
theorem sampling_failure_never_fatal (probe : DiskProbe) (path : String)
    (st : MonitorState) (e : String) (herr : (probe path).1 = some e) :
    MonitorTick probe path st = MonitorState.mk st.lastSample (st.errorsLogged + 1) ∧
    (MonitorTick probe path st).lastSample = st.lastSample ∧
    ∀ probes : List DiskProbe, (∀ p ∈ probes, ∃ e2, (p path).1 = some e2) →
      (MonitorRun probes path st).lastSample = st.lastSample := by
  have htick : MonitorTick probe path st =
      MonitorState.mk st.lastSample (st.errorsLogged + 1) := by
    unfold MonitorTick GetFolderSize
    rcases hp : probe path with ⟨o, n⟩
    rw [hp] at herr
    simp only at herr
    subst herr
    rfl
  refine ⟨htick, by rw [htick], ?_⟩
  intro probes hall
  exact monitorRun_keeps_sample_of_fail probes path st hall

/-- C8 (witness): a failing probe leaves the sample 42 in place and counts one
logged error. -/
theorem sampling_failure_never_fatal_witness :
    MonitorTick probeFailing "data/archive" (MonitorState.mk (some 42) 0) =
      MonitorState.mk (MonitorState.mk (some 42) 0).lastSample
        ((MonitorState.mk (some 42) 0).errorsLogged + 1) ∧
    (MonitorTick probeFailing "data/archive" (MonitorState.mk (some 42) 0)).lastSample =
      (MonitorState.mk (some 42) 0).lastSample ∧
    ∀ probes : List DiskProbe, (∀ p ∈ probes, ∃ e2, (p "data/archive").1 = some e2) →
      (MonitorRun probes "data/archive" (MonitorState.mk (some 42) 0)).lastSample =
        (MonitorState.mk (some 42) 0).lastSample :=
  sampling_failure_never_fatal probeFailing "data/archive"
    (MonitorState.mk (some 42) 0) "EACCES" rfl

/-- C6: for a well-formed source URL (one whose pathname yields a user as its
first segment), the generated filename is hostname, user, 14-digit timestamp
and 6-hex-digit random suffix joined by underscores with extension `.mp4`;
and two generated filenames with distinct random suffixes are distinct,
whatever their URLs and clock readings. -/
theorem genFilename_composition (url : Url) (now : DateTime) (user : List Char)
    (bs bs2 : List Nat)
    (huser : UsernameFromUrl url = some user)
    (ht : now.InRange)
    (hb : bs.length = 3) (hb256 : ∀ b ∈ bs, b < 256)
    (hb2 : bs2.length = 3)
    (hne : bytesToHexL bs ≠ bytesToHexL bs2) :
    GenFilename url now bs =
      String.mk (url.hostname.data ++ '_' :: user ++
        '_' :: formatTimestamp now ++ '_' :: bytesToHexL bs ++ mp4Ext) ∧
    (formatTimestamp now).length = 14 ∧
    (∀ c ∈ formatTimestamp now, c.isDigit = true) ∧
    (bytesToHexL bs).length = 6 ∧
    (∀ c ∈ bytesToHexL bs, c.isDigit = true ∨ ('a' ≤ c ∧ c ≤ 'f')) ∧
    ∀ url2 now2, GenFilename url now bs ≠ GenFilename url2 now2 bs2 := by
  refine ⟨?_, formatTimestamp_length now, formatTimestamp_digits ht, ?_,
    bytesToHexL_chars bs hb256, ?_⟩
  · simp [GenFilename, huser, jsShow]
  · rw [bytesToHexL_length, hb]
  · intro url2 now2 heq
    apply hne
    have hdata := congrArg String.data heq
    simp only [GenFilename] at hdata
    have hassoc : ∀ (h u t s : List Char),
        h ++ '_' :: u ++ '_' :: t ++ '_' :: s ++ mp4Ext =
          (h ++ '_' :: u ++ '_' :: t ++ ['_']) ++ (s ++ mp4Ext) := by
      intro h u t s
      simp
    rw [hassoc, hassoc] at hdata
    have hlen : (bytesToHexL bs ++ mp4Ext).length = (bytesToHexL bs2 ++ mp4Ext).length := by
      simp only [List.length_append, bytesToHexL_length, hb, hb2]
    have hsuffix := (List.append_inj' hdata hlen).2
    have hlen6 : (bytesToHexL bs).length = (bytesToHexL bs2).length := by
      simp only [bytesToHexL_length, hb, hb2]
    exact (List.append_inj hsuffix hlen6).1

/-- C6 (witness): the composed filename and distinctness at a concrete URL,
clock reading, and two distinct random byte triples. -/
theorem genFilename_composition_witness :
    GenFilename urlSample nowSample [0, 0, 0] =
      String.mk (urlSample.hostname.data ++ '_' :: "alice".data ++
        '_' :: formatTimestamp nowSample ++ '_' :: bytesToHexL [0, 0, 0] ++ mp4Ext) ∧
    (formatTimestamp nowSample).length = 14 ∧
    (∀ c ∈ formatTimestamp nowSample, c.isDigit = true) ∧
    (bytesToHexL [0, 0, 0]).length = 6 ∧
    (∀ c ∈ bytesToHexL [0, 0, 0], c.isDigit = true ∨ ('a' ≤ c ∧ c ≤ 'f')) ∧
    ∀ url2 now2, GenFilename urlSample nowSample [0, 0, 0] ≠
      GenFilename url2 now2 [0, 0, 1] :=
  genFilename_composition urlSample nowSample "alice".data [0, 0, 0] [0, 0, 1]
    (by decide) (by refine ⟨?_, ?_, ?_, ?_, ?_, ?_⟩ <;> decide) (by decide)
    (by decide) (by decide) (by decide)

/-! ### Helper lemmas for the GenClipFilename regex -/

/-- The head given by `head?` is a member. -/
theorem head?_eq_some_mem {l : List Char} {a : Char} (h : l.head? = some a) :
    a ∈ l := by
  cases l with
  | nil => simp at h
  | cons c t =>
    simp only [List.head?_cons, Option.some.injEq] at h
    rw [← h]
    exact List.mem_cons_self c t

/-- Dropping the left part of an append plus `k` drops `k` from the right. -/
theorem drop_append_plus {α : Type} (a b : List α) (k : Nat) :
    (a ++ b).drop (a.length + k) = b.drop k := by
  induction a with
  | nil => simp
  | cons x a ih =>
    simp only [List.cons_append, List.length_cons, Nat.succ_add, List.drop_succ_cons]
    exact ih

/-- Dropping exactly the left part of an append. -/
theorem drop_left_eq {α : Type} (a b : List α) : (a ++ b).drop a.length = b := by
  have h := drop_append_plus a b 0
  simp only [Nat.add_zero, List.drop_zero] at h
  exact h

/-- Taking exactly the left part of an append. -/
theorem take_left_eq {α : Type} (a b : List α) : (a ++ b).take a.length = a := by
  induction a with
  | nil => rfl
  | cons x a ih =>
    simp only [List.cons_append, List.length_cons, List.take_succ_cons, List.cons.injEq]
    exact ⟨trivial, ih⟩

/-- `takeWhile` keeps a list all of whose characters satisfy the predicate. -/
theorem takeWhile_eq_self_of_all {p : Char → Bool} {l : List Char}
    (h : ∀ c ∈ l, p c = true) : l.takeWhile p = l := by
  induction l with
  | nil => rfl
  | cons c t ih =>
    have hc := h c (List.mem_cons_self c t)
    simp [List.takeWhile_cons, hc,
      ih (fun x hx => h x (List.mem_cons_of_mem c hx))]

/-- The underscore is in the class `[\w+.]`. -/
theorem clsG1_underscore : clsG1 '_' = true := by decide

/-- Decimal digits are in the class `[\w+.]`. -/
theorem clsG1_of_isDigit {c : Char} (h : c.isDigit = true) : clsG1 c = true := by
  simp [clsG1, isWordChar, h]

/-- A decimal digit is not the underscore. -/
theorem isDigit_ne_underscore {c : Char} (h : c.isDigit = true) : c ≠ '_' := by
  intro he
  rw [he] at h
  exact absurd h (by decide)

/-- A hex digit character is in the class and is not the underscore. -/
theorem digitChar_cls {d : Nat} (hd : d < 16) :
    clsG1 (Nat.digitChar d) = true ∧ Nat.digitChar d ≠ '_' := by
  interval_cases d <;> exact ⟨by decide, by decide⟩

/-- A hex digit character satisfies the class `[a-f0-9]`. -/
theorem digitChar_isHexLower {d : Nat} (hd : d < 16) :
    isHexLower (Nat.digitChar d) = true := by
  interval_cases d <;> decide

/-- Characters of the hex encoding: in `[a-f0-9]`, in `[\w+.]`, not `_`. -/
theorem bytesToHexL_props (bs : List Nat) (hbs : ∀ b ∈ bs, b < 256) :
    ∀ c ∈ bytesToHexL bs,
      isHexLower c = true ∧ clsG1 c = true ∧ c ≠ '_' := by
  induction bs with
  | nil => intro c hc; simp [bytesToHexL] at hc
  | cons b bs ih =>
    intro c hc
    have hb : b < 256 := hbs b (List.mem_cons_self b bs)
    simp only [bytesToHexL, List.mem_cons] at hc
    rcases hc with rfl | rfl | hc
    · exact ⟨digitChar_isHexLower (by omega),
        (digitChar_cls (by omega)).1, (digitChar_cls (by omega)).2⟩
    · exact ⟨digitChar_isHexLower (by omega),
        (digitChar_cls (by omega)).1, (digitChar_cls (by omega)).2⟩
    · exact ih (fun x hx => hbs x (List.mem_cons_of_mem b hx)) c hc

/-- `matchTail` requires a leading underscore. -/
theorem matchTail_none_of_head {l : List Char} (h : ¬ l.head? = some '_') :
    matchTail l = none := by
  unfold matchTail
  rw [if_neg h]

/-- `stepATail` requires a leading underscore. -/
theorem stepATail_none_of_head {l : List Char} (h : ¬ l.head? = some '_') :
    stepATail l = none := by
  unfold stepATail
  rw [if_neg h]

/-- A function that needs a leading underscore fails on every suffix of an
underscore-free list. -/
theorem allDrops_none {α : Type} (f : List Char → Option α)
    (hf : ∀ r : List Char, ¬ r.head? = some '_' → f r = none)
    {q : List Char} (hq : '_' ∉ q) : ∀ i, f (q.drop i) = none := by
  intro i
  apply hf
  intro hhead
  exact hq (List.mem_of_mem_drop (head?_eq_some_mem hhead))

/-- A function that needs a leading underscore fails on every suffix of
`P ++ '_' :: Q` provided it fails on `'_' :: Q` and on every suffix of `Q`,
with `P` underscore-free. -/
theorem allDrops_none_append {α : Type} (f : List Char → Option α)
    (hf : ∀ r : List Char, ¬ r.head? = some '_' → f r = none)
    {P Q : List Char} (hP : '_' ∉ P)
    (hmid : f ('_' :: Q) = none)
    (hQ : ∀ i, f (Q.drop i) = none) :
    ∀ i, f ((P ++ '_' :: Q).drop i) = none := by
  induction P with
  | nil =>
    intro i
    cases i with
    | zero =>
      simp only [List.nil_append, List.drop_zero]
      exact hmid
    | succ k =>
      simp only [List.nil_append, List.drop_succ_cons]
      exact hQ k
  | cons c P' ih =>
    have hP' : '_' ∉ P' := fun h => hP (List.mem_cons_of_mem c h)
    have hc : ¬ c = '_' := by
      intro h
      subst h
      exact hP (List.mem_cons_self _ _)
    intro i
    cases i with
    | zero =>
      apply hf
      simp only [List.cons_append, List.drop_zero, List.head?_cons,
        Option.some.injEq]
      exact hc
    | succ k =>
      simp only [List.cons_append, List.drop_succ_cons]
      exact ih hP' k

/-- `matchTail` fails right at an underscore whose remainder has no second
underscore: the pattern needs another one after the 14 digits. -/
theorem matchTail_cons_none {q : List Char} (hq : '_' ∉ q) :
    matchTail ('_' :: q) = none := by
  unfold matchTail
  rw [if_pos (show ('_' :: q).head? = some '_' from rfl)]
  simp only [List.tail_cons]
  by_cases hcond : (q.take 14).length = 14 ∧ (q.take 14).all Char.isDigit
  · rw [if_pos hcond]
    have hno : ¬ (q.drop 14).head? = some '_' := by
      intro h
      exact hq (List.mem_of_mem_drop (head?_eq_some_mem h))
    rw [if_neg hno]
  · rw [if_neg hcond]

/-- The backtracking `.+` fails outright when every attempted tail fails. -/
theorem tryB_congr (l : List Char) (n k : Nat) (hk : k ≤ n)
    (h : ∀ j, k < j → j ≤ n → matchTail (l.drop j) = none) :
    tryB n l = tryB k l := by
  induction n with
  | zero => rw [Nat.le_zero.mp hk]
  | succ n ih =>
    rcases Nat.lt_or_ge k (n + 1) with hlt | hge
    · have hmt : matchTail (l.drop (n + 1)) = none := h (n + 1) hlt (Nat.le_refl _)
      have hstep : stepB l (n + 1) = none := by
        unfold stepB
        rw [hmt]
      calc tryB (n + 1) l = tryB n l := by simp only [tryB, hstep]
        _ = tryB k l := ih (by omega) (fun j h1 h2 => h j h1 (by omega))
    · rw [Nat.le_antisymm hk hge]

/-- `stepATail` fails at an underscore when the inner `.+` search fails. -/
theorem stepATail_none_of_tryB {R : List Char} (h : tryB R.length R = none) :
    stepATail ('_' :: R) = none := by
  unfold stepATail
  rw [if_pos (show ('_' :: R).head? = some '_' from rfl)]
  simp only [List.tail_cons, h]

/-- The backtracking `[\w+.]+` walks past attempts whose tails all fail. -/
theorem tryA_congr (l : List Char) (n k : Nat) (hk : k ≤ n)
    (h : ∀ m, k < m → m ≤ n → stepATail (l.drop m) = none) :
    tryA n l = tryA k l := by
  induction n with
  | zero => rw [Nat.le_zero.mp hk]
  | succ n ih =>
    rcases Nat.lt_or_ge k (n + 1) with hlt | hge
    · have hsa : stepATail (l.drop (n + 1)) = none := h (n + 1) hlt (Nat.le_refl _)
      have hstep : stepA l (n + 1) = none := by
        unfold stepA
        rw [hsa]
      calc tryA (n + 1) l = tryA n l := by simp only [tryA, hstep]
        _ = tryA k l := ih (by omega) (fun j h1 h2 => h j h1 (by omega))
    · rw [Nat.le_antisymm hk hge]

/-- The deterministic tail succeeds on the canonical suffix: underscore, 14
digits, underscore, 6 hex characters, `.mp4`, end. -/
theorem matchTail_hit {T S : List Char}
    (hT : T.length = 14) (hTd : T.all Char.isDigit = true)
    (hS : S.length = 6) (hSh : S.all isHexLower = true) :
    matchTail ('_' :: (T ++ '_' :: (S ++ mp4Ext))) = some (T, S, []) := by
  have htake14 : (T ++ '_' :: (S ++ mp4Ext)).take 14 = T := by
    rw [← hT]
    exact take_left_eq T _
  have hdrop14 : (T ++ '_' :: (S ++ mp4Ext)).drop 14 = '_' :: (S ++ mp4Ext) := by
    rw [← hT]
    exact drop_left_eq T _
  have htake6 : (S ++ mp4Ext).take 6 = S := by
    rw [← hS]
    exact take_left_eq S _
  have hdrop6 : (S ++ mp4Ext).drop 6 = mp4Ext := by
    rw [← hS]
    exact drop_left_eq S _
  unfold matchTail
  rw [if_pos (show ('_' :: (T ++ '_' :: (S ++ mp4Ext))).head? = some '_' from rfl)]
  simp only [List.tail_cons, htake14, hdrop14, htake6, hdrop6]
  rw [if_pos ⟨hT, hTd⟩]
  rw [if_pos (show ('_' :: (S ++ mp4Ext)).head? = some '_' from rfl)]
  rw [if_pos ⟨hS, hSh⟩]
  rw [if_pos (show mp4Ext.take 4 = mp4Ext from rfl)]
  rfl

/-- The greedy `.+` on `U ++ '_' :: R2` lands exactly on `U` when every
longer attempt fails and the tail succeeds right after `U`. -/
theorem tryB_hit {U R2 T S : List Char} (hU : U ≠ [])
    (hmid : matchTail ('_' :: R2) = some (T, S, ([] : List Char)))
    (hfail : ∀ i, matchTail (R2.drop i) = none) :
    tryB (U ++ '_' :: R2).length (U ++ '_' :: R2) = some (U, T, S, []) := by
  have hlen : (U ++ '_' :: R2).length = U.length + (R2.length + 1) := by
    simp
  have hdropU : (U ++ '_' :: R2).drop U.length = '_' :: R2 := drop_left_eq U _
  have hfail2 : ∀ j, U.length < j → j ≤ (U ++ '_' :: R2).length →
      matchTail ((U ++ '_' :: R2).drop j) = none := by
    intro j h1 h2
    have hj : j = U.length + ((j - U.length - 1) + 1) := by omega
    have hrw : (U ++ '_' :: R2).drop j = R2.drop (j - U.length - 1) := by
      calc (U ++ '_' :: R2).drop j
          = (U ++ '_' :: R2).drop (U.length + ((j - U.length - 1) + 1)) := by rw [← hj]
        _ = ('_' :: R2).drop ((j - U.length - 1) + 1) := drop_append_plus _ _ _
        _ = R2.drop (j - U.length - 1) := rfl
    rw [hrw]
    exact hfail _
  have hcongr : tryB (U ++ '_' :: R2).length (U ++ '_' :: R2) =
      tryB U.length (U ++ '_' :: R2) := by
    apply tryB_congr _ _ _ (by omega) hfail2
  obtain ⟨c, U', hU'⟩ : ∃ c U', U = c :: U' := by
    cases hUc : U with
    | nil => exact absurd hUc hU
    | cons c U' => exact ⟨c, U', rfl⟩
  have hUlen : U.length = U'.length + 1 := by rw [hU']; rfl
  have hstep : stepB (U ++ '_' :: R2) (U'.length + 1) = some (U, T, S, []) := by
    unfold stepB
    rw [← hUlen, hdropU, hmid, take_left_eq]
  rw [hcongr, hUlen]
  simp only [tryB, hstep]

/-- `stepATail` succeeds at the underscore whose remainder the greedy `.+`
resolves. -/
theorem stepATail_hit {R : List Char} {b t h r : List Char}
    (htry : tryB R.length R = some (b, t, h, r)) :
    stepATail ('_' :: R) = some (b, t, h, r) := by
  unfold stepATail
  rw [if_pos (show ('_' :: R).head? = some '_' from rfl)]
  simp only [List.tail_cons, htry]

/-- The backtracking `[\w+.]+` lands on the attempt of length `m` when every
longer attempt up to `n` fails and attempt `m` succeeds. -/
theorem tryA_hit {l : List Char} {n m : Nat} {g : RxGroups}
    (hm : 1 ≤ m) (hmn : m ≤ n)
    (hfail : ∀ j, m < j → j ≤ n → stepATail (l.drop j) = none)
    (hit : stepA l m = some g) :
    tryA n l = some g := by
  have hcongr : tryA n l = tryA m l := tryA_congr l n m hmn hfail
  obtain ⟨m', rfl⟩ : ∃ m', m = m' + 1 := ⟨m - 1, by omega⟩
  rw [hcongr]
  simp only [tryA, hit]

/-- The canonical replacement: on a subject of the shape hostname,
underscore, user, underscore, 14 digits, underscore, 6 hex characters,
`.mp4` — with hostname and user non-empty, inside the class `[\w+.]` and
underscore-free — the regex matches the whole subject with group 1 ending
after the third underscore and group 2 the hex suffix, so the replacement
swaps exactly the suffix for the fresh one. -/
theorem replaceRx_canonical (H U T S F : List Char)
    (hH1 : H ≠ []) (hHcls : ∀ c ∈ H, clsG1 c = true ∧ c ≠ '_')
    (hU1 : U ≠ []) (hUcls : ∀ c ∈ U, clsG1 c = true ∧ c ≠ '_')
    (hT14 : T.length = 14) (hTd : ∀ c ∈ T, c.isDigit = true)
    (hS6 : S.length = 6)
    (hSd : ∀ c ∈ S, isHexLower c = true ∧ clsG1 c = true ∧ c ≠ '_') :
    replaceRx (H ++ '_' :: U ++ '_' :: T ++ '_' :: S ++ mp4Ext) F =
      H ++ '_' :: U ++ '_' :: T ++ '_' :: F ++ mp4Ext := by
  have hUnu : '_' ∉ U := fun h => (hUcls '_' h).2 rfl
  have hTnu : '_' ∉ T := fun h => isDigit_ne_underscore (hTd '_' h) rfl
  have hSnu : '_' ∉ S := fun h => (hSd '_' h).2.2 rfl
  have hMnu : '_' ∉ mp4Ext := by decide
  have hWnu : '_' ∉ S ++ mp4Ext := by
    intro h
    rcases List.mem_append.mp h with h | h
    · exact hSnu h
    · exact hMnu h
  have hTall : T.all Char.isDigit = true := List.all_eq_true.mpr hTd
  have hSall : S.all isHexLower = true :=
    List.all_eq_true.mpr (fun c hc => (hSd c hc).1)
  -- the subject, re-associated around its three underscores
  have hlrw : H ++ '_' :: U ++ '_' :: T ++ '_' :: S ++ mp4Ext =
      H ++ '_' :: (U ++ '_' :: (T ++ '_' :: (S ++ mp4Ext))) := by
    simp only [List.cons_append, List.append_assoc]
  -- failure of the deterministic tail everywhere after the second underscore
  have hMT_W : ∀ i, matchTail ((S ++ mp4Ext).drop i) = none :=
    allDrops_none matchTail (fun r hr => matchTail_none_of_head hr) hWnu
  have hmidMT_W : matchTail ('_' :: (S ++ mp4Ext)) = none := matchTail_cons_none hWnu
  have hMT_R2 : ∀ i, matchTail ((T ++ '_' :: (S ++ mp4Ext)).drop i) = none :=
    allDrops_none_append matchTail (fun r hr => matchTail_none_of_head hr)
      hTnu hmidMT_W hMT_W
  have hB_W : tryB (S ++ mp4Ext).length (S ++ mp4Ext) = none := by
    have h0 := tryB_congr (S ++ mp4Ext) (S ++ mp4Ext).length 0 (Nat.zero_le _)
      (fun j h1 h2 => hMT_W j)
    rw [h0]
    rfl
  have hB_R2 : tryB (T ++ '_' :: (S ++ mp4Ext)).length (T ++ '_' :: (S ++ mp4Ext)) =
      none := by
    have h0 := tryB_congr (T ++ '_' :: (S ++ mp4Ext))
      (T ++ '_' :: (S ++ mp4Ext)).length 0 (Nat.zero_le _)
      (fun j h1 h2 => hMT_R2 j)
    rw [h0]
    rfl
  -- failure of the rest of the pattern everywhere after the first underscore
  have hSA_W : ∀ i, stepATail ((S ++ mp4Ext).drop i) = none :=
    allDrops_none stepATail (fun r hr => stepATail_none_of_head hr) hWnu
  have hmidSA_W : stepATail ('_' :: (S ++ mp4Ext)) = none :=
    stepATail_none_of_tryB hB_W
  have hSA_R2 : ∀ i, stepATail ((T ++ '_' :: (S ++ mp4Ext)).drop i) = none :=
    allDrops_none_append stepATail (fun r hr => stepATail_none_of_head hr)
      hTnu hmidSA_W hSA_W
  have hmidSA_R2 : stepATail ('_' :: (T ++ '_' :: (S ++ mp4Ext))) = none :=
    stepATail_none_of_tryB hB_R2
  have hSA_rest1 : ∀ i,
      stepATail ((U ++ '_' :: (T ++ '_' :: (S ++ mp4Ext))).drop i) = none :=
    allDrops_none_append stepATail (fun r hr => stepATail_none_of_head hr)
      hUnu hmidSA_R2 hSA_R2
  -- the successful attempt
  have hhitMT : matchTail ('_' :: (T ++ '_' :: (S ++ mp4Ext))) = some (T, S, []) :=
    matchTail_hit hT14 hTall hS6 hSall
  have hBrest1 : tryB (U ++ '_' :: (T ++ '_' :: (S ++ mp4Ext))).length
      (U ++ '_' :: (T ++ '_' :: (S ++ mp4Ext))) = some (U, T, S, []) :=
    tryB_hit hU1 hhitMT hMT_R2
  have hSAhit : stepATail ('_' :: (U ++ '_' :: (T ++ '_' :: (S ++ mp4Ext)))) =
      some (U, T, S, []) := stepATail_hit hBrest1
  -- the subject, its length, and the step at the hostname boundary
  have hdropH : (H ++ '_' :: (U ++ '_' :: (T ++ '_' :: (S ++ mp4Ext)))).drop H.length =
      '_' :: (U ++ '_' :: (T ++ '_' :: (S ++ mp4Ext))) := drop_left_eq H _
  have htakeH : (H ++ '_' :: (U ++ '_' :: (T ++ '_' :: (S ++ mp4Ext)))).take H.length =
      H := take_left_eq H _
  have hstepA : stepA (H ++ '_' :: (U ++ '_' :: (T ++ '_' :: (S ++ mp4Ext)))) H.length =
      some (RxGroups.mk (H ++ '_' :: U ++ '_' :: T ++ ['_']) S []) := by
    unfold stepA
    rw [hdropH, hSAhit, htakeH]
  have hfailA : ∀ m, H.length < m →
      m ≤ (H ++ '_' :: (U ++ '_' :: (T ++ '_' :: (S ++ mp4Ext)))).length →
      stepATail ((H ++ '_' :: (U ++ '_' :: (T ++ '_' :: (S ++ mp4Ext)))).drop m) =
        none := by
    intro m h1 h2
    have hm : m = H.length + ((m - H.length - 1) + 1) := by omega
    have hrw : (H ++ '_' :: (U ++ '_' :: (T ++ '_' :: (S ++ mp4Ext)))).drop m =
        (U ++ '_' :: (T ++ '_' :: (S ++ mp4Ext))).drop (m - H.length - 1) := by
      calc (H ++ '_' :: (U ++ '_' :: (T ++ '_' :: (S ++ mp4Ext)))).drop m
          = (H ++ '_' :: (U ++ '_' :: (T ++ '_' :: (S ++ mp4Ext)))).drop
              (H.length + ((m - H.length - 1) + 1)) := by rw [← hm]
        _ = ('_' :: (U ++ '_' :: (T ++ '_' :: (S ++ mp4Ext)))).drop
              ((m - H.length - 1) + 1) := drop_append_plus _ _ _
        _ = (U ++ '_' :: (T ++ '_' :: (S ++ mp4Ext))).drop (m - H.length - 1) := rfl
    rw [hrw]
    exact hSA_rest1 _
  have hHpos : 1 ≤ H.length := List.length_pos.mpr hH1
  have hHle : H.length ≤ (H ++ '_' :: (U ++ '_' :: (T ++ '_' :: (S ++ mp4Ext)))).length := by
    simp
  have htryA : tryA (H ++ '_' :: (U ++ '_' :: (T ++ '_' :: (S ++ mp4Ext)))).length
      (H ++ '_' :: (U ++ '_' :: (T ++ '_' :: (S ++ mp4Ext)))) =
      some (RxGroups.mk (H ++ '_' :: U ++ '_' :: T ++ ['_']) S []) :=
    tryA_hit hHpos hHle hfailA hstepA
  -- every character of the subject is in the class, so the initial run is all of it
  have hclsAll : ∀ c ∈ H ++ '_' :: (U ++ '_' :: (T ++ '_' :: (S ++ mp4Ext))),
      clsG1 c = true := by
    intro c hc
    simp only [List.mem_append, List.mem_cons] at hc
    rcases hc with hc | rfl | hc | rfl | hc | rfl | hc | hc
    · exact (hHcls c hc).1
    · exact clsG1_underscore
    · exact (hUcls c hc).1
    · exact clsG1_underscore
    · exact clsG1_of_isDigit (hTd c hc)
    · exact clsG1_underscore
    · exact (hSd c hc).2.1
    · simp only [mp4Ext, List.mem_cons, List.not_mem_nil, or_false] at hc
      rcases hc with rfl | rfl | rfl | rfl <;> decide
  have hmh : matchHere (H ++ '_' :: (U ++ '_' :: (T ++ '_' :: (S ++ mp4Ext)))) =
      some (RxGroups.mk (H ++ '_' :: U ++ '_' :: T ++ ['_']) S []) := by
    unfold matchHere
    rw [takeWhile_eq_self_of_all hclsAll]
    exact htryA
  -- the leftmost search hits at position zero
  have hsearch : searchRx (H ++ '_' :: (U ++ '_' :: (T ++ '_' :: (S ++ mp4Ext)))) =
      some ([], RxGroups.mk (H ++ '_' :: U ++ '_' :: T ++ ['_']) S []) := by
    obtain ⟨c, H', hH'⟩ : ∃ c H', H = c :: H' := by
      cases hHc : H with
      | nil => exact absurd hHc hH1
      | cons c H' => exact ⟨c, H', rfl⟩
    rw [hH'] at hmh ⊢
    rw [show (c :: H') ++ '_' :: (U ++ '_' :: (T ++ '_' :: (S ++ mp4Ext))) =
        c :: (H' ++ '_' :: (U ++ '_' :: (T ++ '_' :: (S ++ mp4Ext)))) from rfl] at hmh ⊢
    simp only [searchRx, hmh]
  rw [hlrw]
  unfold replaceRx
  rw [hsearch]
  simp

/-- C10 (counterexample): the claim says for every filename returned by
GenFilename the 6-hex-digit suffix is replaced by a fresh value. But
GenFilename of a URL whose pathname is just a slash has an empty user
component; on the resulting filename the regex of GenClipFilename finds no
match (its `.+` needs a non-empty user between the underscores), so the
filename comes back unchanged — the old suffix `abcdef` survives —
contradicting the predicted suffix swap. -/
theorem genClipFilename_counterexample :
    GenFilename urlNoUser nowCex [171, 205, 239] = "a.b__12345678901234_abcdef.mp4" ∧
    GenClipFilename "a.b__12345678901234_abcdef.mp4" [0, 0, 0] =
      "a.b__12345678901234_abcdef.mp4" ∧
    GenClipFilename "a.b__12345678901234_abcdef.mp4" [0, 0, 0] ≠
      GenFilename urlNoUser nowCex [0, 0, 0] := by
  refine ⟨by decide, by decide, by decide⟩

/-- C10 (amended): for every filename returned by GenFilename whose hostname
and user components are non-empty and consist of characters from the regex
class `[\w+.]` other than the underscore, GenClipFilename returns the same
filename with exactly the 6-hex-digit random suffix before `.mp4` replaced
by the fresh value: the hostname, user, 14-digit timestamp and the `.mp4`
extension are preserved unchanged, i.e. the result is GenFilename of the
same URL and clock reading at the fresh random bytes. -/
theorem genClipFilename_replaces_suffix (url : Url) (now : DateTime)
    (user : List Char) (bs fresh : List Nat)
    (huser : UsernameFromUrl url = some user)
    (hhost1 : url.hostname.data ≠ [])
    (hhost : ∀ c ∈ url.hostname.data, clsG1 c = true ∧ c ≠ '_')
    (huser1 : user ≠ [])
    (huserc : ∀ c ∈ user, clsG1 c = true ∧ c ≠ '_')
    (ht : now.InRange)
    (hb : bs.length = 3) (hb256 : ∀ b ∈ bs, b < 256) :
    GenClipFilename (GenFilename url now bs) fresh = GenFilename url now fresh := by
  have hfn : GenFilename url now bs =
      String.mk (url.hostname.data ++ '_' :: user ++ '_' :: formatTimestamp now ++
        '_' :: bytesToHexL bs ++ mp4Ext) := by
    unfold GenFilename
    rw [huser]
    rfl
  have h6 : (bytesToHexL bs).length = 6 := by
    rw [bytesToHexL_length, hb]
  unfold GenClipFilename
  rw [hfn]
  show String.mk (replaceRx
      (url.hostname.data ++ '_' :: user ++ '_' :: formatTimestamp now ++
        '_' :: bytesToHexL bs ++ mp4Ext) (bytesToHexL fresh)) = _
  rw [replaceRx_canonical url.hostname.data user (formatTimestamp now)
    (bytesToHexL bs) (bytesToHexL fresh) hhost1 hhost huser1 huserc
    (formatTimestamp_length now) (formatTimestamp_digits ht) h6
    (bytesToHexL_props bs hb256)]
  unfold GenFilename
  rw [huser]
  rfl

/-- C10 (amended, witness): on a concrete well-formed filename the suffix is
swapped for the fresh one and everything else survives. -/
theorem genClipFilename_replaces_suffix_witness :
    GenClipFilename (GenFilename urlSample nowSample [0, 0, 0]) [1, 2, 3] =
      GenFilename urlSample nowSample [1, 2, 3] :=
  genClipFilename_replaces_suffix urlSample nowSample "alice".data [0, 0, 0]
    [1, 2, 3] (by decide) (by decide) (by decide) (by decide) (by decide)
    (by refine ⟨?_, ?_, ?_, ?_, ?_, ?_⟩ <;> decide) (by decide) (by decide)

end JoyBox
